import Mathlib

/-!
Shallow embedding of the sia coordination registry
(`backend/registry/work_unit_registry.py` together with the entity model in
`backend/models/agent.py`, `backend/models/work_unit.py` and the
`ClaimResult` record), and proofs about its claim/release/queue-promotion
state machine.

Modelling conventions:
* `datetime.utcnow()` is abstracted as an `Int` timestamp passed explicitly
  to every operation (`now`); one operation uses a single instant.
* Python dicts (`path -> WorkUnit`, `agent_id -> AgentInfo`) become
  insertion-ordered association lists with first-match lookup, replace-in-place
  update and append-if-new, which is exactly the Python dict discipline.
* Every mutating operation returns the list of events it emits through
  `_emit`, so frame conditions about emission can be stated.
* The random uuid `id` field of `WorkUnit` is omitted: it is generated from
  `uuid4` and never read by any registry logic.
-/

namespace Sia

/-- Work unit type enum (`WorkUnitType`). -/
inductive WorkUnitType where
  | file
  | directory
  | process
deriving DecidableEq, Repr

/-- Work unit status enum (`WorkUnitStatus`). -/
inductive WorkUnitStatus where
  | available
  | claimed
  | completed
deriving DecidableEq, Repr

/-- Agent type enum (`AgentType`). -/
inductive AgentType where
  | main
  | subagent
deriving DecidableEq, Repr

/-- Queue entry (`QueueEntry`): an agent waiting for a work unit. -/
structure QueueEntry where
  agent_id : String
  requested_at : Int
deriving DecidableEq, Repr

/-- Work unit record (`WorkUnit`). -/
structure WorkUnit where
  path : String
  type : WorkUnitType
  owner_agent_id : Option String
  claimed_at : Option Int
  queue : List QueueEntry
  status : WorkUnitStatus
  ttl_seconds : Int
  expires_at : Option Int
deriving DecidableEq, Repr

/-- Agent record (`AgentInfo`). -/
structure AgentInfo where
  agent_id : String
  session_id : String
  agent_type : AgentType
  task_tool_use_id : Option String
  parent_agent_id : Option String
  registered_at : Int
  last_seen : Int
  ttl_seconds : Int
deriving DecidableEq, Repr

/-- Result of a claim attempt (`ClaimResult`); `queue_position` and
`owner_agent_id` default to `None` in the source and are `none` when the
constructor call omits them. -/
structure ClaimResult where
  success : Bool
  work_unit : WorkUnit
  queue_position : Option Nat
  owner_agent_id : Option String
  message : String
deriving DecidableEq, Repr

/-- Events published through `WorkUnitRegistry._emit`. -/
inductive Event where
  | agent_registered (agent : AgentInfo)
  | agent_removed (agent_id : String)
  | work_unit_claimed (wu : WorkUnit)
  | work_unit_released (path : String)
  | work_unit_transferred (path : String) (new_owner : String)
  | agent_queued (path : String) (agent_id : String) (position : Nat)
  | agent_left_queue (path : String) (agent_id : String)
deriving DecidableEq, Repr

/-- The registry state: `_work_units`, `_agents`, `_default_ttl`. -/
structure Registry where
  work_units : List (String × WorkUnit)
  agents : List (String × AgentInfo)
  default_ttl : Int
deriving DecidableEq, Repr

/-- Python-dict lookup on an association list: first match wins. -/
def lookupA {α : Type} (k : String) : List (String × α) → Option α
  | [] => none
  | (k₁, v) :: rest => if k₁ = k then some v else lookupA k rest

/-- Python-dict assignment `d[k] = v`: replace in place, or append if new. -/
def updateA {α : Type} (k : String) (v : α) : List (String × α) → List (String × α)
  | [] => [(k, v)]
  | (k₁, v₁) :: rest => if k₁ = k then (k, v) :: rest else (k₁, v₁) :: updateA k v rest

/-- Python-dict deletion `del d[k]`: drop the first binding of `k`. -/
def eraseA {α : Type} (k : String) : List (String × α) → List (String × α)
  | [] => []
  | (k₁, v₁) :: rest => if k₁ = k then rest else (k₁, v₁) :: eraseA k rest

/-- Keys of an association list, in insertion order. -/
def keysA {α : Type} (l : List (String × α)) : List String := l.map Prod.fst

/-- The agent ids occurring in a queue, in order. -/
def WorkUnit.queueAgents (wu : WorkUnit) : List String := wu.queue.map QueueEntry.agent_id

/-- Helper for `WorkUnit.queue_position`: first index of `aid`, counting from `i`. -/
def queuePositionFrom (aid : String) : List QueueEntry → Nat → Option Nat
  | [], _ => none
  | e :: rest, i => if e.agent_id = aid then some i else queuePositionFrom aid rest (i + 1)

/-- 1-indexed queue position of an agent (`WorkUnit.queue_position`). -/
def WorkUnit.queue_position (wu : WorkUnit) (aid : String) : Option Nat :=
  queuePositionFrom aid wu.queue 1

/-- Queue membership test (`WorkUnit.is_in_queue`). -/
def WorkUnit.is_in_queue (wu : WorkUnit) (aid : String) : Bool :=
  wu.queue.any (fun e => e.agent_id == aid)

/-- Python truthiness of `ttl_seconds or self._default_ttl`: both `None`
and `0` fall back to the default. -/
def ttlOrDefault : Option Int → Int → Int
  | none, d => d
  | some t, d => if t = 0 then d else t

/-- Session prefix extraction `agent_id.split(":")[0]`. -/
def sessionOf (aid : String) : String := (aid.splitOn ":").headD aid

/-- The minimal agent record built on auto-registration inside `claim`:
all dataclass defaults, timestamps at the current instant, agent TTL 600. -/
def AgentInfo.autoRegistered (aid : String) (now : Int) : AgentInfo :=
  ⟨aid, sessionOf aid, AgentType.main, none, none, now, now, 600⟩

/-- Python truthiness of an optional string (`if wu.owner_agent_id:`):
`None` and the empty string are falsy. -/
def strTruthy : Option String → Bool
  | none => false
  | some s => s != ""

/-- The agent record after `update_last_seen` at `now`. -/
def AgentInfo.touch (a : AgentInfo) (now : Int) : AgentInfo :=
  { a with last_seen := now }

/-- Agent expiry test (`AgentInfo.is_expired`): strictly more than
`ttl_seconds` since `last_seen`. -/
def AgentInfo.is_expired (a : AgentInfo) (now : Int) : Bool :=
  decide (a.ttl_seconds < now - a.last_seen)

/-- `WorkUnitRegistry.register_agent`: refresh and return the existing
record if the id is known (no emission), otherwise store the given record
and emit `agent_registered`. -/
def Registry.register_agent (s : Registry) (agent : AgentInfo) (now : Int) :
    AgentInfo × Registry × List Event :=
  match lookupA agent.agent_id s.agents with
  | some existing =>
      let touched := existing.touch now
      (touched, { s with agents := updateA agent.agent_id touched s.agents }, [])
  | none =>
      (agent, { s with agents := updateA agent.agent_id agent s.agents },
        [Event.agent_registered agent])

/-- `WorkUnitRegistry.heartbeat`: refresh `last_seen` if the agent is known. -/
def Registry.heartbeat (s : Registry) (aid : String) (now : Int) : Bool × Registry :=
  match lookupA aid s.agents with
  | some a => (true, { s with agents := updateA aid (a.touch now) s.agents })
  | none => (false, s)

/-- The auto-registration block at the top of `WorkUnitRegistry.claim`:
unknown callers get a minimal agent record via a direct dict insert,
which emits nothing. -/
def Registry.autoRegister (s : Registry) (aid : String) (now : Int) : Registry :=
  if (lookupA aid s.agents).isNone then
    { s with agents := updateA aid (AgentInfo.autoRegistered aid now) s.agents }
  else s

/-- `WorkUnitRegistry.claim`: the four-case claim state machine, with the
implicit auto-registration of unknown agents. -/
def Registry.claim (s : Registry) (agent_id path : String)
    (work_unit_type : WorkUnitType) (ttl_seconds : Option Int) (now : Int) :
    ClaimResult × Registry × List Event :=
  let ttl := ttlOrDefault ttl_seconds s.default_ttl
  let s₀ := s.autoRegister agent_id now
  match lookupA path s₀.work_units with
  | none =>
      let wu : WorkUnit :=
        ⟨path, work_unit_type, some agent_id, some now, [], WorkUnitStatus.claimed,
          ttl, some (now + ttl)⟩
      (⟨true, wu, none, none, "Work unit claimed"⟩,
        { s₀ with work_units := updateA path wu s₀.work_units },
        [Event.work_unit_claimed wu])
  | some wu =>
      if wu.owner_agent_id = some agent_id then
        let wu₁ := { wu with expires_at := some (now + ttl) }
        (⟨true, wu₁, none, none, "Ownership refreshed"⟩,
          { s₀ with work_units := updateA path wu₁ s₀.work_units }, [])
      else if wu.is_in_queue agent_id then
        let pos := (wu.queue_position agent_id).getD 0
        (⟨false, wu, some pos, wu.owner_agent_id,
            "Already in queue at position " ++ toString pos⟩, s₀, [])
      else
        let wu₁ := { wu with queue := wu.queue ++ [⟨agent_id, now⟩] }
        let pos := wu₁.queue.length
        (⟨false, wu₁, some pos, wu.owner_agent_id,
            "Work unit busy. Added to queue at position " ++ toString pos⟩,
          { s₀ with work_units := updateA path wu₁ s₀.work_units },
          [Event.agent_queued path agent_id pos])

/-- `WorkUnitRegistry._release_internal`: refuse when the path is unknown or
the caller is not the owner; otherwise promote the queue head or clear the
ownership fields. -/
def Registry.releaseInternal (s : Registry) (agent_id path : String) (now : Int) :
    Bool × Registry × List Event :=
  match lookupA path s.work_units with
  | none => (false, s, [])
  | some wu =>
      if wu.owner_agent_id = some agent_id then
        match wu.queue with
        | next :: rest =>
            let wu₁ := { wu with
              owner_agent_id := some next.agent_id
              claimed_at := some now
              expires_at := some (now + wu.ttl_seconds)
              queue := rest }
            (true, { s with work_units := updateA path wu₁ s.work_units },
              [Event.work_unit_transferred path next.agent_id])
        | [] =>
            let wu₁ := { wu with
              owner_agent_id := none
              claimed_at := none
              expires_at := none
              status := WorkUnitStatus.available }
            (true, { s with work_units := updateA path wu₁ s.work_units },
              [Event.work_unit_released path])
      else (false, s, [])

/-- `WorkUnitRegistry.release`: the public wrapper over `_release_internal`. -/
def Registry.release (s : Registry) (agent_id path : String) (now : Int) :
    Bool × Registry × List Event :=
  s.releaseInternal agent_id path now

/-- The per-path body of the loop in `WorkUnitRegistry.remove_agent`:
release the unit if owned by the agent, then filter the agent out of the
(possibly already popped) queue. -/
def removeAgentLoop (aid : String) (now : Int) :
    List String → Registry → Registry × List Event
  | [], s => (s, [])
  | p :: ps, s =>
      let step : Registry × List Event :=
        match lookupA p s.work_units with
        | none => (s, [])
        | some wu =>
            let rel : Registry × List Event :=
              if wu.owner_agent_id = some aid then
                let r := s.releaseInternal aid p now
                (r.2.1, r.2.2)
              else (s, [])
            match lookupA p rel.1.work_units with
            | none => rel
            | some wu₁ =>
                let wu₂ := { wu₁ with
                  queue := wu₁.queue.filter (fun e => e.agent_id != aid) }
                ({ rel.1 with work_units := updateA p wu₂ rel.1.work_units }, rel.2)
      let next := removeAgentLoop aid now ps step.1
      (next.1, step.2 ++ next.2)

/-- `WorkUnitRegistry.remove_agent`: release every unit the agent owns and
scrub it from every queue, then delete the agent record. No-op when the
agent is unknown. -/
def Registry.remove_agent (s : Registry) (aid : String) (now : Int) :
    Registry × List Event :=
  if (lookupA aid s.agents).isSome then
    let r := removeAgentLoop aid now (keysA s.work_units) s
    ({ r.1 with agents := eraseA aid r.1.agents },
      r.2 ++ [Event.agent_removed aid])
  else (s, [])

/-- Phase one of `WorkUnitRegistry.cleanup_expired`: walk the snapshot of
work units; for each one with a truthy owner and `expires_at < now`,
release it on the owner's behalf and record the path. -/
def cleanupWorkUnitsLoop (now : Int) :
    List (String × WorkUnit) → Registry → List String × Registry × List Event
  | [], s => ([], s, [])
  | (p, wu) :: rest, s =>
      let step : List String × Registry × List Event :=
        match wu.expires_at with
        | some e =>
            if e < now then
              match wu.owner_agent_id with
              | some o =>
                  if o = "" then ([], s, [])
                  else
                    let r := s.releaseInternal o p now
                    ([p], r.2.1, r.2.2)
              | none => ([], s, [])
            else ([], s, [])
        | none => ([], s, [])
      let next := cleanupWorkUnitsLoop now rest step.2.1
      (step.1 ++ next.1, next.2.1, step.2.2 ++ next.2.2)

/-- Phase two of `WorkUnitRegistry.cleanup_expired`: remove every agent
whose `last_seen` is older than its TTL (cascading releases inside
`remove_agent`). -/
def cleanupAgentsLoop (now : Int) :
    List String → Registry → Registry × List Event
  | [], s => (s, [])
  | aid :: rest, s =>
      let step : Registry × List Event :=
        match lookupA aid s.agents with
        | some a => if a.is_expired now then s.remove_agent aid now else (s, [])
        | none => (s, [])
      let next := cleanupAgentsLoop now rest step.1
      (next.1, step.2 ++ next.2)

/-- `WorkUnitRegistry.cleanup_expired`: work units first, agents second;
returns only the direct work-unit expirations. -/
def Registry.cleanup_expired (s : Registry) (now : Int) :
    List String × Registry × List Event :=
  let phase₁ := cleanupWorkUnitsLoop now s.work_units s
  let phase₂ := cleanupAgentsLoop now (keysA phase₁.2.1.agents) phase₁.2.1
  (phase₁.1, phase₂.1, phase₁.2.2 ++ phase₂.2)

/-- The effect of a successful `_release_internal` on the released work
unit: promote the queue head, or clear the ownership fields. -/
def releaseTransform (now : Int) (w : WorkUnit) : WorkUnit :=
  match w.queue with
  | next :: rest => { w with
      owner_agent_id := some next.agent_id
      claimed_at := some now
      expires_at := some (now + w.ttl_seconds)
      queue := rest }
  | [] => { w with
      owner_agent_id := none
      claimed_at := none
      expires_at := none
      status := WorkUnitStatus.available }

/-- The per-work-unit effect of the loop body of `remove_agent`: release
if owned by the departing agent, then scrub it from the queue. -/
def removeTransform (aid : String) (now : Int) (w : WorkUnit) : WorkUnit :=
  let w₁ := if w.owner_agent_id = some aid then releaseTransform now w else w
  { w₁ with queue := w₁.queue.filter (fun e => e.agent_id != aid) }

/-- The phase-one test of `cleanup_expired`: a work unit is directly
expired when `expires_at` is set and in the past and the owner field is
truthy (a non-empty string). -/
def directlyExpired (now : Int) (w : WorkUnit) : Bool :=
  match w.expires_at, w.owner_agent_id with
  | some e, some o => decide (e < now) && (o != "")
  | _, _ => false

/-- Current owner of the work unit registered at a path, if any. -/
def ownerAt (s : Registry) (p : String) : Option String :=
  (lookupA p s.work_units).bind WorkUnit.owner_agent_id

/-- Claim one path for each listed agent in order (file type, default TTL,
one instant), as in the FIFO fairness scenario. -/
def claimAll (p : String) (t : Int) : List String → Registry → Registry
  | [], s => s
  | a :: as, s => claimAll p t as (s.claim a p WorkUnitType.file none t).2.1

/-- One step of the hand-over scenario: the current owner (if any)
releases the path. -/
def stepRelease (p : String) (t : Int) (s : Registry) : Registry :=
  match ownerAt s p with
  | some o => (s.release o p t).2.1
  | none => s

/-!
Association-list lemmas: the Python-dict discipline of `lookupA`,
`updateA` and `eraseA`.
-/

theorem lookupA_updateA_self {α : Type} (k : String) (v : α) (l : List (String × α)) :
    lookupA k (updateA k v l) = some v := by
  induction l with
  | nil => simp [updateA, lookupA]
  | cons h rest ih =>
      by_cases hk : h.1 = k
      · simp [updateA, hk, lookupA]
      · simp [updateA, hk, lookupA, ih]

theorem lookupA_updateA_ne {α : Type} {q k : String} (v : α) (l : List (String × α))
    (h : q ≠ k) : lookupA q (updateA k v l) = lookupA q l := by
  induction l with
  | nil => simp [updateA, lookupA, Ne.symm h]
  | cons e rest ih =>
      by_cases hk : e.1 = k
      · simp [updateA, hk, lookupA, Ne.symm h, ih]
      · simp only [updateA, if_neg hk, lookupA, ih]

theorem keysA_updateA_of_mem {α : Type} {k : String} (v : α) :
    ∀ {l : List (String × α)}, k ∈ keysA l → keysA (updateA k v l) = keysA l := by
  intro l
  induction l with
  | nil => intro h; simp [keysA] at h
  | cons e rest ih =>
      intro h
      by_cases hk : e.1 = k
      · simp [updateA, hk, keysA]
      · have hmem : k ∈ keysA rest := by
          rcases (by simpa [keysA] using h) with h₁ | h₁
          · exact absurd h₁.symm hk
          · simpa [keysA] using h₁
        have hih := ih hmem
        simp only [keysA] at hih ⊢
        simp [updateA, hk, hih]

theorem updateA_updateA {α : Type} (k : String) (v₁ v₂ : α) (l : List (String × α)) :
    updateA k v₂ (updateA k v₁ l) = updateA k v₂ l := by
  induction l with
  | nil => simp [updateA]
  | cons e rest ih =>
      by_cases hk : e.1 = k
      · simp [updateA, hk]
      · simp [updateA, hk, ih]

theorem mem_keysA_of_lookupA {α : Type} {k : String} {v : α} :
    ∀ {l : List (String × α)}, lookupA k l = some v → k ∈ keysA l := by
  intro l
  induction l with
  | nil => intro h; simp [lookupA] at h
  | cons e rest ih =>
      intro h
      by_cases hk : e.1 = k
      · simp [keysA, hk]
      · simp only [lookupA, if_neg hk] at h
        simp only [keysA, List.map_cons, List.mem_cons]
        exact Or.inr (by simpa [keysA] using ih h)

theorem lookupA_isSome_of_mem_keysA {α : Type} {k : String} :
    ∀ {l : List (String × α)}, k ∈ keysA l → (lookupA k l).isSome := by
  intro l
  induction l with
  | nil => intro h; simp [keysA] at h
  | cons e rest ih =>
      intro h
      by_cases hk : e.1 = k
      · simp [lookupA, hk]
      · simp only [lookupA, if_neg hk]
        rcases (by simpa [keysA] using h) with h₁ | h₁
        · exact absurd h₁.symm hk
        · exact ih (by simpa [keysA] using h₁)

theorem mem_of_lookupA {α : Type} {k : String} {v : α} :
    ∀ {l : List (String × α)}, lookupA k l = some v → (k, v) ∈ l := by
  intro l
  induction l with
  | nil => intro h; simp [lookupA] at h
  | cons e rest ih =>
      intro h
      by_cases hk : e.1 = k
      · simp only [lookupA, if_pos hk] at h
        rcases e with ⟨a, b⟩
        simp only at hk h
        subst hk
        have hb := Option.some.inj h
        subst hb
        exact List.mem_cons_self _ _
      · simp only [lookupA, if_neg hk] at h
        exact List.mem_cons_of_mem _ (ih h)

theorem lookupA_of_mem_nodup {α : Type} {k : String} {v : α} :
    ∀ {l : List (String × α)}, (keysA l).Nodup → (k, v) ∈ l → lookupA k l = some v := by
  intro l
  induction l with
  | nil => intro _ h; simp at h
  | cons e rest ih =>
      intro hnd h
      have hnd' : (∀ x : α, (e.1, x) ∉ rest) ∧ (List.map Prod.fst rest).Nodup := by
        simpa [keysA] using hnd
      rcases List.mem_cons.mp h with h₁ | h₁
      · simp [lookupA, ← h₁]
      · have hk : e.1 ≠ k := by
          intro hk
          exact hnd'.1 v (hk ▸ h₁)
        simp only [lookupA, if_neg hk]
        exact ih hnd'.2 h₁

theorem lookupA_eraseA_ne {α : Type} {q k : String} (h : q ≠ k) :
    ∀ (l : List (String × α)), lookupA q (eraseA k l) = lookupA q l := by
  intro l
  induction l with
  | nil => simp [eraseA]
  | cons e rest ih =>
      by_cases hk : e.1 = k
      · have hq : e.1 ≠ q := fun hh => h (hh ▸ hk ▸ rfl)
        simp [eraseA, hk, lookupA, hq, Ne.symm h]
      · simp only [eraseA, if_neg hk, lookupA, ih]

theorem lookupA_eraseA_self {α : Type} {k : String} :
    ∀ {l : List (String × α)}, (keysA l).Nodup → lookupA k (eraseA k l) = none := by
  intro l
  induction l with
  | nil => intro _; simp [eraseA, lookupA]
  | cons e rest ih =>
      intro hnd
      have hnd' : (∀ x : α, (e.1, x) ∉ rest) ∧ (List.map Prod.fst rest).Nodup := by
        simpa [keysA] using hnd
      by_cases hk : e.1 = k
      · subst hk
        simp only [eraseA, if_pos rfl]
        cases hl : lookupA e.1 rest with
        | none => exact hl
        | some v => exact absurd (mem_of_lookupA hl) (hnd'.1 v)
      · simp only [eraseA, if_neg hk, lookupA, if_neg hk]
        exact ih hnd'.2

theorem keysA_eraseA_sublist {α : Type} (k : String) (l : List (String × α)) :
    (keysA (eraseA k l)).Sublist (keysA l) := by
  induction l with
  | nil => simp [eraseA, keysA]
  | cons e rest ih =>
      by_cases hk : e.1 = k
      · simp [eraseA, hk, keysA]
      · simp only [eraseA, hk, if_false, keysA, List.map_cons]
        exact List.Sublist.cons₂ _ (by simpa [keysA] using ih)

theorem nodup_keysA_eraseA {α : Type} {k : String} {l : List (String × α)}
    (hnd : (keysA l).Nodup) : (keysA (eraseA k l)).Nodup :=
  (keysA_eraseA_sublist k l).nodup hnd

/-!
Queue-position and membership lemmas.
-/

theorem is_in_queue_eq_false_iff (wu : WorkUnit) (a : String) :
    wu.is_in_queue a = false ↔ a ∉ wu.queueAgents := by
  simp [WorkUnit.is_in_queue, WorkUnit.queueAgents, List.any_eq_false, List.mem_map]

theorem any_eq_true_of_queuePositionFrom {aid : String} {l : List QueueEntry} :
    ∀ {i pos : Nat}, queuePositionFrom aid l i = some pos →
      l.any (fun e => e.agent_id == aid) = true := by
  induction l with
  | nil => intro i pos h; simp [queuePositionFrom] at h
  | cons e rest ih =>
      intro i pos h
      by_cases he : e.agent_id = aid
      · simp [he]
      · simp only [queuePositionFrom, if_neg he] at h
        simp [he, ih h]

theorem is_in_queue_of_queue_position {wu : WorkUnit} {a : String} {pos : Nat}
    (h : wu.queue_position a = some pos) : wu.is_in_queue a = true :=
  any_eq_true_of_queuePositionFrom h

theorem filter_ne_eq_self {aid : String} {l : List QueueEntry}
    (h : aid ∉ l.map QueueEntry.agent_id) :
    l.filter (fun e => e.agent_id != aid) = l := by
  induction l with
  | nil => rfl
  | cons e rest ih =>
      simp only [List.map_cons, List.mem_cons] at h
      push_neg at h
      have he : (e.agent_id != aid) = true := by
        simp [bne_iff_ne]
        exact fun hh => h.1 hh.symm
      simp [List.filter, he, ih h.2]

theorem not_mem_map_filter_ne (aid : String) (l : List QueueEntry) :
    aid ∉ (l.filter (fun e => e.agent_id != aid)).map QueueEntry.agent_id := by
  intro h
  rcases List.mem_map.mp h with ⟨e, he, rfl⟩
  have := List.of_mem_filter he
  simp [bne_iff_ne] at this

/-!
Case-analysis lemmas for the registry operations.
-/

theorem autoRegister_work_units (s : Registry) (a : String) (t : Int) :
    (s.autoRegister a t).work_units = s.work_units := by
  unfold Registry.autoRegister
  split <;> rfl

theorem autoRegister_default_ttl (s : Registry) (a : String) (t : Int) :
    (s.autoRegister a t).default_ttl = s.default_ttl := by
  unfold Registry.autoRegister
  split <;> rfl

theorem autoRegister_of_known {s : Registry} {a : String} (t : Int)
    (h : (lookupA a s.agents).isSome) : s.autoRegister a t = s := by
  unfold Registry.autoRegister
  have hn : (lookupA a s.agents).isNone = false := by
    cases hl : lookupA a s.agents <;> simp_all
  simp [hn]

/-- The newly created work unit of claim case C1 (no record for the path). -/
def freshWorkUnit (p : String) (ty : WorkUnitType) (a : String) (ttl t : Int) : WorkUnit :=
  ⟨p, ty, some a, some t, [], WorkUnitStatus.claimed, ttl, some (t + ttl)⟩

theorem claim_fresh_spec (s : Registry) (a p : String) (ty : WorkUnitType)
    (ttl : Option Int) (t : Int) (h : lookupA p s.work_units = none) :
    s.claim a p ty ttl t =
      (⟨true, freshWorkUnit p ty a (ttlOrDefault ttl s.default_ttl) t, none, none,
          "Work unit claimed"⟩,
        { s.autoRegister a t with
            work_units := updateA p (freshWorkUnit p ty a (ttlOrDefault ttl s.default_ttl) t)
              (s.autoRegister a t).work_units },
        [Event.work_unit_claimed (freshWorkUnit p ty a (ttlOrDefault ttl s.default_ttl) t)]) := by
  unfold Registry.claim
  simp only [autoRegister_work_units, h, freshWorkUnit]

theorem claim_refresh_spec (s : Registry) (a p : String) (ty : WorkUnitType)
    (ttl : Option Int) (t : Int) (w : WorkUnit)
    (hw : lookupA p s.work_units = some w) (hown : w.owner_agent_id = some a) :
    s.claim a p ty ttl t =
      (⟨true, { w with expires_at := some (t + ttlOrDefault ttl s.default_ttl) }, none, none,
          "Ownership refreshed"⟩,
        { s.autoRegister a t with
            work_units := updateA p { w with expires_at := some (t + ttlOrDefault ttl s.default_ttl) }
              (s.autoRegister a t).work_units },
        []) := by
  unfold Registry.claim
  simp only [autoRegister_work_units, hw, hown, if_pos rfl, if_true]

theorem claim_inqueue_spec (s : Registry) (a p : String) (ty : WorkUnitType)
    (ttl : Option Int) (t : Int) (w : WorkUnit) (pos : Nat)
    (hw : lookupA p s.work_units = some w) (hown : w.owner_agent_id ≠ some a)
    (hpos : w.queue_position a = some pos) :
    s.claim a p ty ttl t =
      (⟨false, w, some pos, w.owner_agent_id,
          "Already in queue at position " ++ toString pos⟩,
        s.autoRegister a t, []) := by
  unfold Registry.claim
  simp only [autoRegister_work_units, hw, hown, if_neg hown,
    is_in_queue_of_queue_position hpos, if_pos rfl, hpos, Option.getD_some,
    if_true, if_false]

theorem claim_enqueue_spec (s : Registry) (a p : String) (ty : WorkUnitType)
    (ttl : Option Int) (t : Int) (w : WorkUnit)
    (hw : lookupA p s.work_units = some w) (hown : w.owner_agent_id ≠ some a)
    (hnq : w.is_in_queue a = false) :
    s.claim a p ty ttl t =
      (⟨false, { w with queue := w.queue ++ [⟨a, t⟩] }, some (w.queue.length + 1),
          w.owner_agent_id,
          "Work unit busy. Added to queue at position " ++ toString (w.queue.length + 1)⟩,
        { s.autoRegister a t with
            work_units := updateA p { w with queue := w.queue ++ [⟨a, t⟩] }
              (s.autoRegister a t).work_units },
        [Event.agent_queued p a (w.queue.length + 1)]) := by
  unfold Registry.claim
  simp only [autoRegister_work_units, hw, hown, if_neg hown, hnq, Bool.false_eq_true,
    if_false, if_true, List.length_append, List.length_cons, List.length_nil]

theorem releaseInternal_none_spec (s : Registry) (a p : String) (t : Int)
    (h : lookupA p s.work_units = none) :
    s.releaseInternal a p t = (false, s, []) := by
  unfold Registry.releaseInternal
  simp only [h]

theorem releaseInternal_notowner_spec (s : Registry) (a p : String) (t : Int)
    (w : WorkUnit) (hw : lookupA p s.work_units = some w)
    (h : w.owner_agent_id ≠ some a) :
    s.releaseInternal a p t = (false, s, []) := by
  unfold Registry.releaseInternal
  simp only [hw, if_neg h]

theorem releaseInternal_promote_spec (s : Registry) (a p : String) (t : Int)
    (w : WorkUnit) (e : QueueEntry) (rest : List QueueEntry)
    (hw : lookupA p s.work_units = some w) (hown : w.owner_agent_id = some a)
    (hq : w.queue = e :: rest) :
    s.releaseInternal a p t =
      (true,
        { s with work_units := updateA p { w with
            owner_agent_id := some e.agent_id
            claimed_at := some t
            expires_at := some (t + w.ttl_seconds)
            queue := rest } s.work_units },
        [Event.work_unit_transferred p e.agent_id]) := by
  unfold Registry.releaseInternal
  simp only [hw, hown, if_pos rfl, if_true, hq]

theorem releaseInternal_clear_spec (s : Registry) (a p : String) (t : Int)
    (w : WorkUnit)
    (hw : lookupA p s.work_units = some w) (hown : w.owner_agent_id = some a)
    (hq : w.queue = []) :
    s.releaseInternal a p t =
      (true,
        { s with work_units := updateA p { w with
            owner_agent_id := none
            claimed_at := none
            expires_at := none
            status := WorkUnitStatus.available } s.work_units },
        [Event.work_unit_released p]) := by
  unfold Registry.releaseInternal
  simp only [hw, hown, if_pos rfl, if_true, hq]

theorem releaseInternal_owner_spec (s : Registry) (a p : String) (t : Int)
    (w : WorkUnit)
    (hw : lookupA p s.work_units = some w) (hown : w.owner_agent_id = some a) :
    (s.releaseInternal a p t).1 = true ∧
    (s.releaseInternal a p t).2.1 =
      { s with work_units := updateA p (releaseTransform t w) s.work_units } := by
  cases hq : w.queue with
  | nil => simp [releaseInternal_clear_spec s a p t w hw hown hq, releaseTransform, hq]
  | cons e rest =>
      simp [releaseInternal_promote_spec s a p t w e rest hw hown hq, releaseTransform, hq]

theorem release_eq (s : Registry) (a p : String) (t : Int) :
    s.release a p t = s.releaseInternal a p t := rfl

theorem claim_agents_of_known (s : Registry) (aid p : String) (ty : WorkUnitType)
    (ttl : Option Int) (t : Int) (h : (lookupA aid s.agents).isSome) :
    (s.claim aid p ty ttl t).2.1.agents = s.agents := by
  unfold Registry.claim
  rw [autoRegister_of_known t h]
  cases hw : lookupA p s.work_units with
  | none => simp [hw]
  | some w =>
      by_cases hown : w.owner_agent_id = some aid
      · simp [hw, hown]
      · by_cases hq : w.is_in_queue aid
        · simp [hw, hown, hq]
        · simp [hw, hown, hq]

theorem release_agents (s : Registry) (a p : String) (t : Int) :
    (s.release a p t).2.1.agents = s.agents := by
  rw [release_eq]
  unfold Registry.releaseInternal
  cases hw : lookupA p s.work_units with
  | none => rfl
  | some w =>
      by_cases hown : w.owner_agent_id = some a
      · cases hq : w.queue <;> simp [hown, hq]
      · simp [hown]

/-!
Claim theorems.
-/

/-- C6: release on an unknown path, and release by a caller that is not the
current owner (including when the unit is unowned), both return false and
leave the entire registry state unchanged, emitting no event. -/
theorem c6_release_precondition_noop :
    (∀ (s : Registry) (a p : String) (t : Int),
      lookupA p s.work_units = none → s.release a p t = (false, s, [])) ∧
    (∀ (s : Registry) (a p : String) (t : Int) (w : WorkUnit),
      lookupA p s.work_units = some w → w.owner_agent_id ≠ some a →
      s.release a p t = (false, s, [])) := by
  constructor
  · intro s a p t h
    rw [release_eq]
    exact releaseInternal_none_spec s a p t h
  · intro s a p t w hw h
    rw [release_eq]
    exact releaseInternal_notowner_spec s a p t w hw h

/-- Witness for C6 at concrete inputs: an empty registry, and a registry
where the path is owned by a different agent. -/
theorem c6_witness :
    (Registry.mk [] [] 300).release "a" "/x" 0 = (false, Registry.mk [] [] 300, []) ∧
    (Registry.mk [("/x", ⟨"/x", WorkUnitType.file, some "a", some 0, [],
        WorkUnitStatus.claimed, 300, some 300⟩)] [] 300).release "b" "/x" 7 =
      (false, Registry.mk [("/x", ⟨"/x", WorkUnitType.file, some "a", some 0, [],
        WorkUnitStatus.claimed, 300, some 300⟩)] [] 300, []) := by
  constructor
  · exact c6_release_precondition_noop.1 _ "a" "/x" 0 (by decide)
  · exact c6_release_precondition_noop.2 _ "b" "/x" 7
      ⟨"/x", WorkUnitType.file, some "a", some 0, [], WorkUnitStatus.claimed, 300, some 300⟩
      (by decide) (by decide)

/-- C5: a claim by the current owner refreshes: success is true with message
"Ownership refreshed", `expires_at` becomes the claim time plus the TTL, the
rest of the work unit (`claimed_at`, `owner_agent_id`, `status`, `queue`) and
all other work units are unchanged, and no event is emitted; claimed twice on
a fresh path at increasing times, the second `expires_at` is strictly
greater. -/
theorem c5_idempotent_refresh :
    (∀ (s : Registry) (a p : String) (ty : WorkUnitType) (ttl : Option Int)
        (t : Int) (w : WorkUnit),
      lookupA p s.work_units = some w → w.owner_agent_id = some a →
      (s.claim a p ty ttl t).1.success = true ∧
      (s.claim a p ty ttl t).1.message = "Ownership refreshed" ∧
      lookupA p (s.claim a p ty ttl t).2.1.work_units =
        some { w with expires_at := some (t + ttlOrDefault ttl s.default_ttl) } ∧
      (∀ q, q ≠ p →
        lookupA q (s.claim a p ty ttl t).2.1.work_units = lookupA q s.work_units) ∧
      (s.claim a p ty ttl t).2.2 = []) ∧
    (∀ (s : Registry) (a p : String) (ty : WorkUnitType) (ttl : Option Int)
        (t₁ t₂ : Int),
      lookupA p s.work_units = none → t₁ < t₂ →
      (s.claim a p ty ttl t₁).1.message = "Work unit claimed" ∧
      ((s.claim a p ty ttl t₁).2.1.claim a p ty ttl t₂).1.message = "Ownership refreshed" ∧
      ∃ e₁ e₂ : Int, (s.claim a p ty ttl t₁).1.work_unit.expires_at = some e₁ ∧
        ((s.claim a p ty ttl t₁).2.1.claim a p ty ttl t₂).1.work_unit.expires_at = some e₂ ∧
        e₁ < e₂) := by
  constructor
  · intro s a p ty ttl t w hw hown
    rw [claim_refresh_spec s a p ty ttl t w hw hown]
    refine ⟨rfl, rfl, ?_, ?_, rfl⟩
    · show lookupA p (updateA p _ (s.autoRegister a t).work_units) = _
      rw [lookupA_updateA_self]
    · intro q hq
      show lookupA q (updateA p _ (s.autoRegister a t).work_units) = _
      rw [lookupA_updateA_ne _ _ hq, autoRegister_work_units]
  · intro s a p ty ttl t₁ t₂ h hlt
    rw [claim_fresh_spec s a p ty ttl t₁ h]
    have hw₂ : lookupA p ({ s.autoRegister a t₁ with
        work_units := updateA p (freshWorkUnit p ty a (ttlOrDefault ttl s.default_ttl) t₁)
          (s.autoRegister a t₁).work_units } : Registry).work_units =
        some (freshWorkUnit p ty a (ttlOrDefault ttl s.default_ttl) t₁) :=
      lookupA_updateA_self _ _ _
    rw [claim_refresh_spec _ a p ty ttl t₂ _ hw₂ rfl]
    refine ⟨rfl, rfl, t₁ + ttlOrDefault ttl s.default_ttl,
      t₂ + ttlOrDefault ttl (s.autoRegister a t₁).default_ttl, rfl, rfl, ?_⟩
    rw [autoRegister_default_ttl]
    exact Int.add_lt_add_right hlt _

/-- Witness for C5 at concrete inputs: a registry where "a" owns "/x", and a
double claim on a fresh path. -/
theorem c5_witness :
    ((Registry.mk [("/x", ⟨"/x", WorkUnitType.file, some "a", some 0, [],
        WorkUnitStatus.claimed, 300, some 300⟩)] [] 300).claim
          "a" "/x" WorkUnitType.file none 5).1.message = "Ownership refreshed" ∧
    (((Registry.mk [] [] 300).claim "a" "/z" WorkUnitType.file none 1).2.1.claim
        "a" "/z" WorkUnitType.file none 2).1.message = "Ownership refreshed" := by
  constructor
  · exact ((c5_idempotent_refresh.1 _ "a" "/x" WorkUnitType.file none 5
      ⟨"/x", WorkUnitType.file, some "a", some 0, [], WorkUnitStatus.claimed, 300, some 300⟩
      (by decide) (by decide)).2).1
  · exact ((c5_idempotent_refresh.2 _ "a" "/z" WorkUnitType.file none 1 2
      (by decide) (by decide)).2).1

/-- C7: a claim by an agent already queued at position `pos` on a unit owned
by someone else fails with `queue_position = pos` and the current owner, the
message reports the position, every work unit (in particular the queue) is
unchanged, and no event is emitted. -/
theorem c7_duplicate_queue_admission (s : Registry) (a p : String)
    (ty : WorkUnitType) (ttl : Option Int) (t : Int) (w : WorkUnit) (pos : Nat)
    (hw : lookupA p s.work_units = some w) (hown : w.owner_agent_id ≠ some a)
    (hpos : w.queue_position a = some pos) :
    (s.claim a p ty ttl t).1 =
      ⟨false, w, some pos, w.owner_agent_id,
        "Already in queue at position " ++ toString pos⟩ ∧
    (s.claim a p ty ttl t).2.1.work_units = s.work_units ∧
    (s.claim a p ty ttl t).2.2 = [] := by
  rw [claim_inqueue_spec s a p ty ttl t w pos hw hown hpos]
  exact ⟨rfl, autoRegister_work_units s a t, rfl⟩

/-- Witness for C7 at a concrete input: "b" is queued at position 1 behind
owner "a" and claims again. -/
theorem c7_witness :
    ((Registry.mk [("/w", ⟨"/w", WorkUnitType.file, some "a", some 0,
        [⟨"b", 1⟩], WorkUnitStatus.claimed, 300, some 300⟩)] [] 300).claim
          "b" "/w" WorkUnitType.file none 2).1 =
      ⟨false, ⟨"/w", WorkUnitType.file, some "a", some 0, [⟨"b", 1⟩],
          WorkUnitStatus.claimed, 300, some 300⟩, some 1, some "a",
        "Already in queue at position 1"⟩ :=
  (c7_duplicate_queue_admission _ "b" "/w" WorkUnitType.file none 2
    ⟨"/w", WorkUnitType.file, some "a", some 0, [⟨"b", 1⟩], WorkUnitStatus.claimed, 300, some 300⟩
    1 (by decide) (by decide) (by decide)).1

/-- C10: re-registering an existing agent id refreshes only `last_seen` on
the stored record and returns it; the incoming record's attributes are
discarded, other agents and the work units are untouched, and no
`agent_registered` event is emitted. -/
theorem c10_reregistration (s : Registry) (incoming : AgentInfo) (t : Int)
    (old : AgentInfo) (h : lookupA incoming.agent_id s.agents = some old) :
    (s.register_agent incoming t).1 = old.touch t ∧
    lookupA incoming.agent_id (s.register_agent incoming t).2.1.agents =
      some (old.touch t) ∧
    (∀ b, b ≠ incoming.agent_id →
      lookupA b (s.register_agent incoming t).2.1.agents = lookupA b s.agents) ∧
    (s.register_agent incoming t).2.1.work_units = s.work_units ∧
    (s.register_agent incoming t).2.2 = [] := by
  unfold Registry.register_agent
  rw [h]
  refine ⟨rfl, ?_, ?_, rfl, rfl⟩
  · show lookupA incoming.agent_id (updateA incoming.agent_id _ s.agents) = _
    rw [lookupA_updateA_self]
  · intro b hb
    show lookupA b (updateA incoming.agent_id _ s.agents) = _
    rw [lookupA_updateA_ne _ _ hb]

/-- Witness for C10 at a concrete input: re-registering "a-1" with different
attributes keeps everything but `last_seen`. -/
theorem c10_witness :
    ((Registry.mk [] [("a-1", ⟨"a-1", "a-1", AgentType.main, none, none, 0, 0, 600⟩)]
        300).register_agent
          ⟨"a-1", "other", AgentType.subagent, some "task", some "parent", 9, 9, 50⟩ 7).1 =
      ⟨"a-1", "a-1", AgentType.main, none, none, 0, 7, 600⟩ :=
  (c10_reregistration _ ⟨"a-1", "other", AgentType.subagent, some "task", some "parent", 9, 9, 50⟩
    7 ⟨"a-1", "a-1", AgentType.main, none, none, 0, 0, 600⟩ (by decide)).1

/-- C4 counterexample: a registered agent (last_seen = 0) performs a
successful claim at time 5 and a successful release at time 7, yet its
stored `last_seen` is still 0 — neither operation refreshes it. -/
theorem c4_counterexample :
    (((Registry.mk [] [("a-1", ⟨"a-1", "a-1", AgentType.main, none, none, 0, 0, 600⟩)]
        300).claim "a-1" "/x" WorkUnitType.file none 5).1.success = true) ∧
    ((((Registry.mk [] [("a-1", ⟨"a-1", "a-1", AgentType.main, none, none, 0, 0, 600⟩)]
        300).claim "a-1" "/x" WorkUnitType.file none 5).2.1.release "a-1" "/x" 7).1 = true) ∧
    ((lookupA "a-1"
        (((Registry.mk [] [("a-1", ⟨"a-1", "a-1", AgentType.main, none, none, 0, 0, 600⟩)]
          300).claim "a-1" "/x" WorkUnitType.file none 5).2.1.release "a-1" "/x" 7).2.1.agents).map
        AgentInfo.last_seen = some 0) ∧
    ¬ ((lookupA "a-1"
        (((Registry.mk [] [("a-1", ⟨"a-1", "a-1", AgentType.main, none, none, 0, 0, 600⟩)]
          300).claim "a-1" "/x" WorkUnitType.file none 5).2.1.release "a-1" "/x" 7).2.1.agents).map
        AgentInfo.last_seen = some 7) := by
  decide

/-- C4 (amended): successful claim and release operations by an agent that
is already registered leave the agent map — in particular that agent record
and its `last_seen` — completely unchanged; `last_seen` is refreshed only by
`heartbeat` (and by `register_agent` on an existing id). -/
theorem c4_amended (s : Registry) (aid p : String) (ty : WorkUnitType)
    (ttl : Option Int) (t : Int) (a : AgentInfo)
    (h : lookupA aid s.agents = some a) :
    (s.claim aid p ty ttl t).2.1.agents = s.agents ∧
    (s.release aid p t).2.1.agents = s.agents ∧
    lookupA aid (s.heartbeat aid t).2.agents = some (a.touch t) := by
  refine ⟨claim_agents_of_known s aid p ty ttl t (by simp [h]), release_agents s aid p t, ?_⟩
  unfold Registry.heartbeat
  rw [h]
  show lookupA aid (updateA aid _ s.agents) = _
  rw [lookupA_updateA_self]

/-- Witness for C4 (amended) at a concrete input. -/
theorem c4_amended_witness :
    ((Registry.mk [] [("a-1", ⟨"a-1", "a-1", AgentType.main, none, none, 0, 0, 600⟩)]
        300).claim "a-1" "/x" WorkUnitType.file none 5).2.1.agents =
      [("a-1", ⟨"a-1", "a-1", AgentType.main, none, none, 0, 0, 600⟩)] :=
  (c4_amended _ "a-1" "/x" WorkUnitType.file none 5
    ⟨"a-1", "a-1", AgentType.main, none, none, 0, 0, 600⟩ (by decide)).1

/-- C9 counterexample: on an empty registry with default TTL 300, a claim
with `ttl_seconds = 0` at time 10 succeeds and stores
`expires_at = 310` — strictly later than the claim time, because Python
`ttl_seconds or default` treats 0 as falsy. -/
theorem c9_counterexample :
    (((Registry.mk [] [] 300).claim "a" "/x" WorkUnitType.file (some 0) 10).1.success = true) ∧
    ((lookupA "/x"
        ((Registry.mk [] [] 300).claim "a" "/x" WorkUnitType.file (some 0) 10).2.1.work_units).bind
        WorkUnit.expires_at = some 310) ∧
    ¬ ((310 : Int) ≤ 10) := by
  decide

/-- C9 (amended): a claim with `ttl_seconds = 0` silently falls back to the
registry default TTL: a fresh claim creates the unit with
`expires_at = now + default_ttl` (and `ttl_seconds = default_ttl`), an owner
refresh sets `expires_at = now + default_ttl`, and the phase-one test of
`cleanup_expired` does not fire for the fresh unit at any sweep time up to
`now + default_ttl`. -/
theorem c9_amended (s : Registry) (a p : String) (ty : WorkUnitType) (t : Int) :
    (lookupA p s.work_units = none →
      lookupA p (s.claim a p ty (some 0) t).2.1.work_units =
        some (freshWorkUnit p ty a s.default_ttl t) ∧
      (freshWorkUnit p ty a s.default_ttl t).expires_at = some (t + s.default_ttl) ∧
      (freshWorkUnit p ty a s.default_ttl t).ttl_seconds = s.default_ttl ∧
      (∀ u : Int, u ≤ t + s.default_ttl →
        directlyExpired u (freshWorkUnit p ty a s.default_ttl t) = false)) ∧
    (∀ w : WorkUnit, lookupA p s.work_units = some w → w.owner_agent_id = some a →
      lookupA p (s.claim a p ty (some 0) t).2.1.work_units =
        some { w with expires_at := some (t + s.default_ttl) }) := by
  have httl : ttlOrDefault (some 0) s.default_ttl = s.default_ttl := rfl
  constructor
  · intro h
    rw [claim_fresh_spec s a p ty (some 0) t h, httl]
    refine ⟨?_, rfl, rfl, ?_⟩
    · show lookupA p (updateA p _ (s.autoRegister a t).work_units) = _
      rw [lookupA_updateA_self]
    · intro u hu
      have hnot : ¬ (t + s.default_ttl < u) := not_lt.mpr hu
      simp [directlyExpired, freshWorkUnit, hnot]
  · intro w hw hown
    rw [claim_refresh_spec s a p ty (some 0) t w hw hown, httl]
    show lookupA p (updateA p _ (s.autoRegister a t).work_units) = _
    rw [lookupA_updateA_self]

/-- Witness for C9 (amended) at concrete inputs. -/
theorem c9_amended_witness :
    (lookupA "/x" ((Registry.mk [] [] 300).claim "a" "/x" WorkUnitType.file (some 0)
        10).2.1.work_units =
      some ⟨"/x", WorkUnitType.file, some "a", some 10, [], WorkUnitStatus.claimed,
        300, some 310⟩) ∧
    directlyExpired 310 ⟨"/x", WorkUnitType.file, some "a", some 10, [],
      WorkUnitStatus.claimed, 300, some (310 : Int)⟩ = false := by
  have h := c9_amended (Registry.mk [] [] 300) "a" "/x" WorkUnitType.file 10
  exact ⟨(h.1 (by decide)).1, (h.1 (by decide)).2.2.2 310 (by decide)⟩

/-- C2 counterexample: after a release with an empty queue, "/x" exists
unowned; agent "b" claims it and is queued (matching the claim), but a
second claim by "b" — still "any agent" against an unowned record — does
not append: the queue stays at length 1 instead of growing to 2. -/
theorem c2_counterexample :
    ((lookupA "/x"
        ((((Registry.mk [] [] 300).claim "a" "/x" WorkUnitType.file none 0).2.1.release
          "a" "/x" 1).2.1.claim "b" "/x" WorkUnitType.file none 2).2.1.work_units).map
        WorkUnit.owner_agent_id = some none) ∧
    (((((((Registry.mk [] [] 300).claim "a" "/x" WorkUnitType.file none 0).2.1.release
          "a" "/x" 1).2.1.claim "b" "/x" WorkUnitType.file none 2).2.1.claim
          "b" "/x" WorkUnitType.file none 3).1.success) = false) ∧
    ((lookupA "/x"
        ((((((Registry.mk [] [] 300).claim "a" "/x" WorkUnitType.file none 0).2.1.release
          "a" "/x" 1).2.1.claim "b" "/x" WorkUnitType.file none 2).2.1.claim
          "b" "/x" WorkUnitType.file none 3).2.1.work_units)).map
        (fun w => w.queue.length) = some 1) ∧
    ¬ ((lookupA "/x"
        ((((((Registry.mk [] [] 300).claim "a" "/x" WorkUnitType.file none 0).2.1.release
          "a" "/x" 1).2.1.claim "b" "/x" WorkUnitType.file none 2).2.1.claim
          "b" "/x" WorkUnitType.file none 3).2.1.work_units)).map
        (fun w => w.queue.length) = some 2) := by
  decide

/-- C2 (amended): a claim on an existing unowned work unit by an agent that
is not already in its queue does not grant ownership: it returns
`success = false` with `owner_agent_id = none`, appends the agent to the
queue at the last position, and leaves the unit unowned. -/
theorem c2_claim_on_unowned (s : Registry) (a p : String) (ty : WorkUnitType)
    (ttl : Option Int) (t : Int) (w : WorkUnit)
    (hw : lookupA p s.work_units = some w)
    (hun : w.owner_agent_id = none)
    (hnq : w.is_in_queue a = false) :
    (s.claim a p ty ttl t).1.success = false ∧
    (s.claim a p ty ttl t).1.owner_agent_id = none ∧
    (s.claim a p ty ttl t).1.queue_position = some (w.queue.length + 1) ∧
    lookupA p (s.claim a p ty ttl t).2.1.work_units =
      some { w with queue := w.queue ++ [⟨a, t⟩] } ∧
    ({ w with queue := w.queue ++ [⟨a, t⟩] } : WorkUnit).owner_agent_id = none := by
  have hown : w.owner_agent_id ≠ some a := by rw [hun]; intro hc; cases hc
  rw [claim_enqueue_spec s a p ty ttl t w hw hown hnq]
  refine ⟨rfl, ?_, rfl, ?_, hun⟩
  · exact hun
  · show lookupA p (updateA p _ (s.autoRegister a t).work_units) = _
    rw [lookupA_updateA_self]

/-- Witness for C2 (amended) at a concrete input: "b" claims an unowned
record with an empty queue. -/
theorem c2_witness :
    ((Registry.mk [("/x", ⟨"/x", WorkUnitType.file, none, none, [],
        WorkUnitStatus.available, 300, none⟩)] [] 300).claim
          "b" "/x" WorkUnitType.file none 2).1.success = false :=
  (c2_claim_on_unowned _ "b" "/x" WorkUnitType.file none 2
    ⟨"/x", WorkUnitType.file, none, none, [], WorkUnitStatus.available, 300, none⟩
    (by decide) (by decide) (by decide)).1

/-!
FIFO machinery for C1: a run of claims by distinct agents on one fresh
path, followed by releases by each successive owner.
-/

theorem map_agent_id_entries (t : Int) (ids : List String) :
    (ids.map (fun b => (⟨b, t⟩ : QueueEntry))).map QueueEntry.agent_id = ids := by
  induction ids with
  | nil => rfl
  | cons x xs ih => simp [ih]

theorem claimAll_spec (p : String) (t : Int) :
    ∀ (as : List String) (s : Registry) (w : WorkUnit),
      lookupA p s.work_units = some w →
      (∀ b ∈ as, w.owner_agent_id ≠ some b) →
      (∀ b ∈ as, b ∉ w.queueAgents) →
      as.Nodup →
      lookupA p (claimAll p t as s).work_units =
        some { w with queue := w.queue ++ as.map (fun b => ⟨b, t⟩) } := by
  intro as
  induction as with
  | nil =>
      intro s w hw _ _ _
      simpa [claimAll] using hw
  | cons b bs ih =>
      intro s w hw hown hq hnd
      have hownb : w.owner_agent_id ≠ some b := hown b (List.mem_cons_self b bs)
      have hqb : w.is_in_queue b = false :=
        (is_in_queue_eq_false_iff w b).mpr (hq b (List.mem_cons_self b bs))
      rw [claimAll]
      have hstep := claim_enqueue_spec s b p WorkUnitType.file none t w hw hownb hqb
      have hw1 : lookupA p ((s.claim b p WorkUnitType.file none t).2.1).work_units =
          some { w with queue := w.queue ++ [⟨b, t⟩] } := by
        rw [hstep]
        show lookupA p (updateA p _ (s.autoRegister b t).work_units) = _
        rw [lookupA_updateA_self]
      have hnd1 := List.nodup_cons.mp hnd
      have hres := ih _ _ hw1
        (fun b2 hb2 => hown b2 (List.mem_cons_of_mem _ hb2))
        (fun b2 hb2 => by
          have hq2 : b2 ∉ w.queueAgents := hq b2 (List.mem_cons_of_mem _ hb2)
          have hb2b : b2 ≠ b := fun hh => hnd1.1 (hh ▸ hb2)
          show b2 ∉ WorkUnit.queueAgents { w with queue := w.queue ++ [⟨b, t⟩] }
          simp only [WorkUnit.queueAgents, List.map_append, List.map_cons, List.map_nil,
            List.mem_append, List.mem_cons, List.not_mem_nil, or_false]
          rintro (hmem | hmem)
          · exact hq2 (by simpa [WorkUnit.queueAgents] using hmem)
          · exact hb2b hmem)
        hnd1.2
      rw [hres]
      simp

theorem releaseChain_owner (p : String) (t : Int) :
    ∀ (k : Nat) (q : List QueueEntry) (o : String) (s : Registry) (w : WorkUnit),
      lookupA p s.work_units = some w →
      w.owner_agent_id = some o →
      w.queue = q →
      (o :: q.map QueueEntry.agent_id).Nodup →
      k < q.length + 1 →
      ownerAt ((stepRelease p t)^[k] s) p = (o :: q.map QueueEntry.agent_id)[k]? := by
  intro k
  induction k with
  | zero =>
      intro q o s w hw hown _ _ _
      simp [ownerAt, hw, hown]
  | succ k ih =>
      intro q o s w hw hown hq hnd hk
      cases q with
      | nil =>
          simp only [List.length_nil] at hk
          omega
      | cons e rest =>
          have hOwner : ownerAt s p = some o := by simp [ownerAt, hw, hown]
          have hstep : stepRelease p t s = (s.release o p t).2.1 := by
            unfold stepRelease
            rw [hOwner]
          have hrel := releaseInternal_promote_spec s o p t w e rest hw hown hq
          have hw1 : lookupA p ((s.release o p t).2.1).work_units =
              some { w with
                owner_agent_id := some e.agent_id
                claimed_at := some t
                expires_at := some (t + w.ttl_seconds)
                queue := rest } := by
            rw [release_eq, hrel]
            show lookupA p (updateA p _ s.work_units) = _
            rw [lookupA_updateA_self]
          have hnd1 : (e.agent_id :: rest.map QueueEntry.agent_id).Nodup := by
            rw [List.map_cons] at hnd
            exact hnd.of_cons
          rw [Function.iterate_succ_apply, hstep]
          have hres := ih rest e.agent_id _ _ hw1 rfl rfl hnd1 (by
            simp only [List.length_cons] at hk
            omega)
          rw [hres]
          simp

/-- C1: when the owner releases a work unit with a non-empty queue, release
returns true, the queue head becomes the owner, the queue shrinks by exactly
that head (and, when queue agent ids are distinct, the new owner is not in
the remaining queue), `claimed_at` is the release time and `expires_at` is
that time plus the unit's configured `ttl_seconds`; consequently, after
distinct agents claim one fresh path in order, k successive releases by each
current owner leave the k-th claimant as owner: ownership passes in exactly
claim-arrival order. -/
theorem c1_fifo_promotion :
    (∀ (s : Registry) (a p : String) (t : Int) (w : WorkUnit) (e : QueueEntry)
        (rest : List QueueEntry),
      lookupA p s.work_units = some w →
      w.owner_agent_id = some a →
      w.queue = e :: rest →
      w.queueAgents.Nodup →
      (s.release a p t).1 = true ∧
      lookupA p (s.release a p t).2.1.work_units =
        some { w with
          owner_agent_id := some e.agent_id
          claimed_at := some t
          expires_at := some (t + w.ttl_seconds)
          queue := rest } ∧
      e.agent_id ∉ rest.map QueueEntry.agent_id ∧
      (s.release a p t).2.2 = [Event.work_unit_transferred p e.agent_id]) ∧
    (∀ (s : Registry) (p : String) (t : Int) (ids : List String) (k : Nat),
      lookupA p s.work_units = none →
      ids.Nodup →
      k < ids.length →
      ownerAt ((stepRelease p t)^[k] (claimAll p t ids s)) p = ids[k]?) := by
  constructor
  · intro s a p t w e rest hw hown hq hnd
    have hrel := releaseInternal_promote_spec s a p t w e rest hw hown hq
    rw [release_eq, hrel]
    refine ⟨rfl, ?_, ?_, rfl⟩
    · show lookupA p (updateA p _ s.work_units) = _
      rw [lookupA_updateA_self]
    · have : (e.agent_id :: rest.map QueueEntry.agent_id).Nodup := by
        have hqa : w.queueAgents = e.agent_id :: rest.map QueueEntry.agent_id := by
          simp [WorkUnit.queueAgents, hq]
        rw [hqa] at hnd
        exact hnd
      exact (List.nodup_cons.mp this).1
  · intro s p t ids k hfresh hnd hk
    cases ids with
    | nil => simp at hk
    | cons a rest =>
        rw [claimAll]
        have h1 := claim_fresh_spec s a p WorkUnitType.file none t hfresh
        have hw1 : lookupA p ((s.claim a p WorkUnitType.file none t).2.1).work_units =
            some (freshWorkUnit p WorkUnitType.file a
              (ttlOrDefault none s.default_ttl) t) := by
          rw [h1]
          show lookupA p (updateA p _ (s.autoRegister a t).work_units) = _
          rw [lookupA_updateA_self]
        have hnd1 := List.nodup_cons.mp hnd
        have hqall := claimAll_spec p t rest _ _ hw1
          (fun b hb => by
            show some a ≠ some b
            intro hab
            exact hnd1.1 ((Option.some.inj hab) ▸ hb))
          (fun b hb => by simp [freshWorkUnit, WorkUnit.queueAgents])
          hnd1.2
        have hchain := releaseChain_owner p t k (rest.map (fun b => (⟨b, t⟩ : QueueEntry)))
          a _ _ hqall rfl rfl
          (by rw [map_agent_id_entries]; exact hnd)
          (by simpa using hk)
        rw [hchain, map_agent_id_entries]

/-- Witness for C1 at concrete inputs: "a" owns "/y" with "b" queued and
releases; and three distinct agents claim "/y" on a fresh registry, after
two hand-overs the third is the owner. -/
theorem c1_witness :
    ((Registry.mk [("/y", ⟨"/y", WorkUnitType.file, some "a", some 0, [⟨"b", 1⟩],
        WorkUnitStatus.claimed, 300, some 300⟩)] [] 300).release "a" "/y" 4).1 = true ∧
    ownerAt ((stepRelease "/y" 5)^[2]
      (claimAll "/y" 5 ["a", "b", "c"] (Registry.mk [] [] 300))) "/y" = some "c" := by
  constructor
  · exact (c1_fifo_promotion.1 _ "a" "/y" 4
      ⟨"/y", WorkUnitType.file, some "a", some 0, [⟨"b", 1⟩], WorkUnitStatus.claimed, 300, some 300⟩
      ⟨"b", 1⟩ [] (by decide) (by decide) (by decide) (by decide)).1
  · have h := c1_fifo_promotion.2 (Registry.mk [] [] 300) "/y" 5 ["a", "b", "c"] 2
      (by decide) (by decide) (by decide)
    simpa using h


theorem removeAgentLoop_cons (aid : String) (t : Int) (p : String) (ps : List String)
    (s : Registry) (w : WorkUnit) (hw : lookupA p s.work_units = some w) :
    (removeAgentLoop aid t (p :: ps) s).1 =
      (removeAgentLoop aid t ps
        { s with work_units := updateA p (removeTransform aid t w) s.work_units }).1 := by
  rw [removeAgentLoop]
  by_cases hown : w.owner_agent_id = some aid
  · cases hq : w.queue with
    | nil =>
        simp only [hw, hown, releaseInternal_clear_spec s aid p t w hw hown hq, if_true,
          lookupA_updateA_self, updateA_updateA]
        simp [removeTransform, releaseTransform, hown, hq]
    | cons e rest =>
        simp only [hw, hown, releaseInternal_promote_spec s aid p t w e rest hw hown hq, if_true,
          lookupA_updateA_self, updateA_updateA]
        simp [removeTransform, releaseTransform, hown, hq]
  · simp only [hw, if_neg hown, lookupA_updateA_self]
    simp [removeTransform, hown]

theorem removeAgentLoop_spec (aid : String) (t : Int) :
    ∀ (ks : List String) (s : Registry),
      (keysA s.work_units).Nodup →
      (∀ p ∈ ks, p ∈ keysA s.work_units) →
      ks.Nodup →
      (removeAgentLoop aid t ks s).1.agents = s.agents ∧
      keysA (removeAgentLoop aid t ks s).1.work_units = keysA s.work_units ∧
      (∀ q, q ∉ ks →
        lookupA q (removeAgentLoop aid t ks s).1.work_units = lookupA q s.work_units) ∧
      (∀ q, q ∈ ks →
        lookupA q (removeAgentLoop aid t ks s).1.work_units =
          (lookupA q s.work_units).map (removeTransform aid t)) := by
  intro ks
  induction ks with
  | nil =>
      intro s _ _ _
      exact ⟨rfl, rfl, fun q _ => rfl, fun q hq => absurd hq (List.not_mem_nil q)⟩
  | cons p ps ih =>
      intro s hnd hmem hknd
      have hp : p ∈ keysA s.work_units := hmem p (List.mem_cons_self p ps)
      obtain ⟨w, hw⟩ : ∃ w, lookupA p s.work_units = some w := by
        cases hl : lookupA p s.work_units with
        | none =>
            have := lookupA_isSome_of_mem_keysA hp
            rw [hl] at this
            simp at this
        | some w => exact ⟨w, rfl⟩
      rw [removeAgentLoop_cons aid t p ps s w hw]
      have hkeys1 : keysA ({ s with
          work_units := updateA p (removeTransform aid t w) s.work_units } : Registry).work_units =
          keysA s.work_units := keysA_updateA_of_mem _ hp
      have hknd' := List.nodup_cons.mp hknd
      have IH := ih { s with work_units := updateA p (removeTransform aid t w) s.work_units }
        (by rw [hkeys1]; exact hnd)
        (fun q hq => by rw [hkeys1]; exact hmem q (List.mem_cons_of_mem _ hq))
        hknd'.2
      refine ⟨by rw [IH.1], by rw [IH.2.1, hkeys1], ?_, ?_⟩
      · intro q hq
        have hqp : q ≠ p := fun hh => hq (hh ▸ List.mem_cons_self p ps)
        have hqs : q ∉ ps := fun hh => hq (List.mem_cons_of_mem _ hh)
        rw [IH.2.2.1 q hqs]
        show lookupA q (updateA p _ s.work_units) = _
        rw [lookupA_updateA_ne _ _ hqp]
      · intro q hq
        rcases List.mem_cons.mp hq with rfl | hq1
        · rw [IH.2.2.1 q hknd'.1]
          show lookupA q (updateA q _ s.work_units) = _
          rw [lookupA_updateA_self, hw]
          rfl
        · have hqp : q ≠ p := fun hh => hknd'.1 (hh ▸ hq1)
          rw [IH.2.2.2 q hq1]
          show (lookupA q (updateA p _ s.work_units)).map _ = _
          rw [lookupA_updateA_ne _ _ hqp]

theorem remove_agent_known_spec (s : Registry) (aid : String) (t : Int)
    (hreg : (lookupA aid s.agents).isSome) (hwk : (keysA s.work_units).Nodup) :
    (s.remove_agent aid t).1.agents = eraseA aid s.agents ∧
    keysA (s.remove_agent aid t).1.work_units = keysA s.work_units ∧
    (∀ q, lookupA q (s.remove_agent aid t).1.work_units =
      (lookupA q s.work_units).map (removeTransform aid t)) := by
  unfold Registry.remove_agent
  simp only [hreg, if_pos]
  have hloop := removeAgentLoop_spec aid t (keysA s.work_units) s hwk (fun p hp => hp) hwk
  refine ⟨by rw [hloop.1], by rw [hloop.2.1], ?_⟩
  intro q
  by_cases hq : q ∈ keysA s.work_units
  · exact hloop.2.2.2 q hq
  · rw [hloop.2.2.1 q hq]
    cases hl : lookupA q s.work_units with
    | none => rfl
    | some w => exact absurd (mem_keysA_of_lookupA hl) hq

/-- C3: after removing a registered agent, it is absent from the agent map,
no work unit is owned by it, no queue contains it; every unit it owned with
a non-empty queue has the prior head promoted (claimed_at and expires_at
refreshed from the unit TTL), and every owned unit with an empty queue
becomes available. Hypotheses: the dict keys are distinct (a Python dict
guarantee) and no unit it owns lists it in that unit queue (a registry
invariant). -/
theorem c3_remove_agent (s : Registry) (aid : String) (t : Int)
    (hreg : (lookupA aid s.agents).isSome)
    (hak : (keysA s.agents).Nodup)
    (hwk : (keysA s.work_units).Nodup)
    (hinv : ∀ pw ∈ s.work_units, pw.2.owner_agent_id = some aid → aid ∉ pw.2.queueAgents) :
    lookupA aid (s.remove_agent aid t).1.agents = none ∧
    (∀ p w₁, lookupA p (s.remove_agent aid t).1.work_units = some w₁ →
      w₁.owner_agent_id ≠ some aid ∧ aid ∉ w₁.queueAgents) ∧
    (∀ p w e rest, lookupA p s.work_units = some w → w.owner_agent_id = some aid →
      w.queue = e :: rest →
      lookupA p (s.remove_agent aid t).1.work_units =
        some { w with
          owner_agent_id := some e.agent_id
          claimed_at := some t
          expires_at := some (t + w.ttl_seconds)
          queue := rest }) ∧
    (∀ p w, lookupA p s.work_units = some w → w.owner_agent_id = some aid →
      w.queue = [] →
      lookupA p (s.remove_agent aid t).1.work_units =
        some { w with
          owner_agent_id := none
          claimed_at := none
          expires_at := none
          status := WorkUnitStatus.available }) := by
  have hspec := remove_agent_known_spec s aid t hreg hwk
  refine ⟨?_, ?_, ?_, ?_⟩
  · rw [hspec.1]
    exact lookupA_eraseA_self hak
  · intro p w₁ hw₁
    rw [hspec.2.2 p] at hw₁
    cases hl : lookupA p s.work_units with
    | none => rw [hl] at hw₁; simp at hw₁
    | some w =>
        rw [hl] at hw₁
        obtain rfl : removeTransform aid t w = w₁ := by simpa using hw₁
        constructor
        · by_cases hown : w.owner_agent_id = some aid
          · cases hq : w.queue with
            | nil => simp [removeTransform, releaseTransform, hown, hq]
            | cons e rest =>
                have haidq := hinv (p, w) (mem_of_lookupA hl) hown
                have he : e.agent_id ≠ aid := by
                  intro hh
                  exact haidq (by simp [WorkUnit.queueAgents, hq, hh])
                simp [removeTransform, releaseTransform, hown, hq, he]
          · simp [removeTransform, hown]
        · have hqa : WorkUnit.queueAgents (removeTransform aid t w) =
              ((if w.owner_agent_id = some aid then releaseTransform t w
                else w).queue.filter (fun e => e.agent_id != aid)).map QueueEntry.agent_id := rfl
          rw [hqa]
          exact not_mem_map_filter_ne aid _
  · intro p w e rest hw hown hq
    rw [hspec.2.2 p, hw]
    have haidq := hinv (p, w) (mem_of_lookupA hw) hown
    have hrest : aid ∉ rest.map QueueEntry.agent_id := fun hh =>
      haidq (by simp [WorkUnit.queueAgents, hq, hh])
    simp [removeTransform, releaseTransform, hown, hq, filter_ne_eq_self hrest]
  · intro p w hw hown hq
    rw [hspec.2.2 p, hw]
    simp [removeTransform, releaseTransform, hown, hq]

/-- Witness for C3 at a concrete input: agent "a-1" owns "/p" (with "a-2"
queued) and "/q" (empty queue); removing "a-1" promotes "a-2" on "/p",
clears "/q", and deletes the agent record. -/
theorem c3_witness :
    lookupA "a-1" ((Registry.mk
      [("/p", ⟨"/p", WorkUnitType.file, some "a-1", some 0, [⟨"a-2", 1⟩],
        WorkUnitStatus.claimed, 300, some 300⟩),
       ("/q", ⟨"/q", WorkUnitType.file, some "a-1", some 0, [],
        WorkUnitStatus.claimed, 300, some 300⟩)]
      [("a-1", ⟨"a-1", "a-1", AgentType.main, none, none, 0, 0, 600⟩),
       ("a-2", ⟨"a-2", "a-2", AgentType.main, none, none, 1, 1, 600⟩)]
      300).remove_agent "a-1" 9).1.agents = none ∧
    lookupA "/p" ((Registry.mk
      [("/p", ⟨"/p", WorkUnitType.file, some "a-1", some 0, [⟨"a-2", 1⟩],
        WorkUnitStatus.claimed, 300, some 300⟩),
       ("/q", ⟨"/q", WorkUnitType.file, some "a-1", some 0, [],
        WorkUnitStatus.claimed, 300, some 300⟩)]
      [("a-1", ⟨"a-1", "a-1", AgentType.main, none, none, 0, 0, 600⟩),
       ("a-2", ⟨"a-2", "a-2", AgentType.main, none, none, 1, 1, 600⟩)]
      300).remove_agent "a-1" 9).1.work_units =
      some ⟨"/p", WorkUnitType.file, some "a-2", some 9, [],
        WorkUnitStatus.claimed, 300, some 309⟩ ∧
    lookupA "/q" ((Registry.mk
      [("/p", ⟨"/p", WorkUnitType.file, some "a-1", some 0, [⟨"a-2", 1⟩],
        WorkUnitStatus.claimed, 300, some 300⟩),
       ("/q", ⟨"/q", WorkUnitType.file, some "a-1", some 0, [],
        WorkUnitStatus.claimed, 300, some 300⟩)]
      [("a-1", ⟨"a-1", "a-1", AgentType.main, none, none, 0, 0, 600⟩),
       ("a-2", ⟨"a-2", "a-2", AgentType.main, none, none, 1, 1, 600⟩)]
      300).remove_agent "a-1" 9).1.work_units =
      some ⟨"/q", WorkUnitType.file, none, none, [],
        WorkUnitStatus.available, 300, none⟩ := by
  have h := c3_remove_agent (Registry.mk
      [("/p", ⟨"/p", WorkUnitType.file, some "a-1", some 0, [⟨"a-2", 1⟩],
        WorkUnitStatus.claimed, 300, some 300⟩),
       ("/q", ⟨"/q", WorkUnitType.file, some "a-1", some 0, [],
        WorkUnitStatus.claimed, 300, some 300⟩)]
      [("a-1", ⟨"a-1", "a-1", AgentType.main, none, none, 0, 0, 600⟩),
       ("a-2", ⟨"a-2", "a-2", AgentType.main, none, none, 1, 1, 600⟩)]
      300) "a-1" 9 (by decide) (by decide) (by decide) (by decide)
  refine ⟨h.1, ?_, ?_⟩
  · have h3 := h.2.2.1 "/p"
      ⟨"/p", WorkUnitType.file, some "a-1", some 0, [⟨"a-2", 1⟩],
        WorkUnitStatus.claimed, 300, some 300⟩
      ⟨"a-2", 1⟩ [] (by decide) (by decide) (by decide)
    simpa using h3
  · have h4 := h.2.2.2 "/q"
      ⟨"/q", WorkUnitType.file, some "a-1", some 0, [],
        WorkUnitStatus.claimed, 300, some 300⟩
      (by decide) (by decide) (by decide)
    simpa using h4

theorem cleanupWorkUnitsLoop_cons (t : Int) (p : String) (wu : WorkUnit)
    (rest : List (String × WorkUnit)) (s : Registry)
    (hw : lookupA p s.work_units = some wu) :
    (cleanupWorkUnitsLoop t ((p, wu) :: rest) s).1 =
      (if directlyExpired t wu then [p] else []) ++
        (cleanupWorkUnitsLoop t rest
          (if directlyExpired t wu then
            { s with work_units := updateA p (releaseTransform t wu) s.work_units }
          else s)).1 ∧
    (cleanupWorkUnitsLoop t ((p, wu) :: rest) s).2.1 =
      (cleanupWorkUnitsLoop t rest
        (if directlyExpired t wu then
          { s with work_units := updateA p (releaseTransform t wu) s.work_units }
        else s)).2.1 := by
  rw [cleanupWorkUnitsLoop]
  cases hexp : wu.expires_at with
  | none =>
      have hd : directlyExpired t wu = false := by
        simp [directlyExpired, hexp]
      simp [hexp, hd]
  | some e =>
      by_cases het : e < t
      · cases hown : wu.owner_agent_id with
        | none =>
            have hd : directlyExpired t wu = false := by
              simp [directlyExpired, hexp, hown]
            simp [hexp, het, hown, hd]
        | some o =>
            by_cases ho : o = ""
            · have hd : directlyExpired t wu = false := by
                simp [directlyExpired, hexp, hown, ho]
              simp [hexp, het, hown, ho, hd]
            · have hd : directlyExpired t wu = true := by
                simp [directlyExpired, hexp, hown, het, ho]
              have hrel := releaseInternal_owner_spec s o p t wu hw hown
              simp [hexp, het, hown, ho, hd, hrel.2]
      · have hd : directlyExpired t wu = false := by
          cases hown : wu.owner_agent_id <;> simp [directlyExpired, hexp, het, hown]
        simp [hexp, het, hd]

theorem cleanupWorkUnitsLoop_spec (t : Int) :
    ∀ (l : List (String × WorkUnit)) (s : Registry),
      (keysA s.work_units).Nodup →
      (∀ pw ∈ l, lookupA pw.1 s.work_units = some pw.2) →
      (keysA l).Nodup →
      (cleanupWorkUnitsLoop t l s).1 =
        (l.filter (fun pw => directlyExpired t pw.2)).map Prod.fst ∧
      (cleanupWorkUnitsLoop t l s).2.1.agents = s.agents ∧
      keysA (cleanupWorkUnitsLoop t l s).2.1.work_units = keysA s.work_units ∧
      (∀ q, q ∉ keysA l →
        lookupA q (cleanupWorkUnitsLoop t l s).2.1.work_units = lookupA q s.work_units) ∧
      (∀ pw ∈ l, lookupA pw.1 (cleanupWorkUnitsLoop t l s).2.1.work_units =
        some (if directlyExpired t pw.2 then releaseTransform t pw.2 else pw.2)) := by
  intro l
  induction l with
  | nil =>
      intro s _ _ _
      exact ⟨rfl, rfl, rfl, fun q _ => rfl, fun pw hpw => absurd hpw (List.not_mem_nil pw)⟩
  | cons pw rest ih =>
      intro s hnd hl hknd
      obtain ⟨p, wu⟩ := pw
      have hw : lookupA p s.work_units = some wu := hl (p, wu) (List.mem_cons_self _ _)
      have hknd0 : (p :: keysA rest).Nodup := hknd
      have hpnot : p ∉ keysA rest := (List.nodup_cons.mp hknd0).1
      have hkndrest : (keysA rest).Nodup := (List.nodup_cons.mp hknd0).2
      have hcons := cleanupWorkUnitsLoop_cons t p wu rest s hw
      by_cases hd : directlyExpired t wu
      · have hp : p ∈ keysA s.work_units := mem_keysA_of_lookupA hw
        have hkeys1 : keysA ({ s with
            work_units := updateA p (releaseTransform t wu) s.work_units } : Registry).work_units =
            keysA s.work_units := keysA_updateA_of_mem _ hp
        have IH := ih { s with work_units := updateA p (releaseTransform t wu) s.work_units }
          (by rw [hkeys1]; exact hnd)
          (fun qw hqw => by
            have hne : qw.1 ≠ p := fun hh =>
              hpnot (hh ▸ List.mem_map_of_mem Prod.fst hqw)
            show lookupA qw.1 (updateA p _ s.work_units) = some qw.2
            rw [lookupA_updateA_ne _ _ hne]
            exact hl qw (List.mem_cons_of_mem _ hqw))
          hkndrest
        rw [if_pos hd, if_pos hd] at hcons
        refine ⟨?_, ?_, ?_, ?_, ?_⟩
        · rw [hcons.1, IH.1]
          simp [List.filter_cons, hd]
        · rw [hcons.2, IH.2.1]
        · rw [hcons.2, IH.2.2.1, hkeys1]
        · intro q hq
          have hqp : q ≠ p := fun hh => hq (hh ▸ List.mem_cons_self p (keysA rest))
          have hqrest : q ∉ keysA rest := fun hh => hq (List.mem_cons_of_mem _ hh)
          rw [hcons.2, IH.2.2.2.1 q hqrest]
          show lookupA q (updateA p _ s.work_units) = _
          rw [lookupA_updateA_ne _ _ hqp]
        · intro qw hqw
          rcases List.mem_cons.mp hqw with rfl | hqw1
          · rw [hcons.2, IH.2.2.2.1 p hpnot]
            show lookupA p (updateA p _ s.work_units) = _
            rw [lookupA_updateA_self, if_pos hd]
          · rw [hcons.2]
            exact IH.2.2.2.2 qw hqw1
      · have IH := ih s hnd
          (fun qw hqw => hl qw (List.mem_cons_of_mem _ hqw))
          hkndrest
        rw [if_neg hd, if_neg hd] at hcons
        refine ⟨?_, ?_, ?_, ?_, ?_⟩
        · rw [hcons.1, IH.1]
          simp [List.filter_cons, hd]
        · rw [hcons.2, IH.2.1]
        · rw [hcons.2, IH.2.2.1]
        · intro q hq
          have hqrest : q ∉ keysA rest := fun hh => hq (List.mem_cons_of_mem _ hh)
          rw [hcons.2]
          exact IH.2.2.2.1 q hqrest
        · intro qw hqw
          rcases List.mem_cons.mp hqw with rfl | hqw1
          · rw [hcons.2, IH.2.2.2.1 p hpnot, if_neg hd, hw]
          · rw [hcons.2]
            exact IH.2.2.2.2 qw hqw1

theorem removeAgentLoop_agents (aid : String) (t : Int) :
    ∀ (ks : List String) (s : Registry),
      (removeAgentLoop aid t ks s).1.agents = s.agents := by
  intro ks
  induction ks with
  | nil => intro s; rfl
  | cons p ps ih =>
      intro s
      rw [removeAgentLoop]
      rw [ih]
      cases hw : lookupA p s.work_units with
      | none => rfl
      | some wu =>
          by_cases hown : wu.owner_agent_id = some aid
          · have hrel : (s.releaseInternal aid p t).2.1.agents = s.agents := by
              rw [← release_eq]
              exact release_agents s aid p t
            simp only [hw, hown, if_true]
            cases hl : lookupA p (s.releaseInternal aid p t).2.1.work_units with
            | none => exact hrel
            | some wu1 => exact hrel
          · simp only [hw, if_neg hown]

theorem remove_agent_agents_cases (s : Registry) (aid : String) (t : Int) :
    (s.remove_agent aid t).1.agents = eraseA aid s.agents ∨
    (s.remove_agent aid t).1.agents = s.agents := by
  unfold Registry.remove_agent
  cases hl : lookupA aid s.agents with
  | none => right; rfl
  | some a =>
      left
      simp only [hl, Option.isSome_some, if_true]
      rw [removeAgentLoop_agents]

theorem remove_agent_agents_known (s : Registry) (aid : String) (t : Int)
    (h : (lookupA aid s.agents).isSome) :
    (s.remove_agent aid t).1.agents = eraseA aid s.agents := by
  unfold Registry.remove_agent
  simp only [h, if_true]
  rw [removeAgentLoop_agents]

theorem remove_agent_wu_cases (s : Registry) (aid : String) (t : Int)
    (hwk : (keysA s.work_units).Nodup) :
    keysA (s.remove_agent aid t).1.work_units = keysA s.work_units ∧
    (∀ q, lookupA q (s.remove_agent aid t).1.work_units = lookupA q s.work_units ∨
      lookupA q (s.remove_agent aid t).1.work_units =
        (lookupA q s.work_units).map (removeTransform aid t)) := by
  unfold Registry.remove_agent
  cases hl : lookupA aid s.agents with
  | none => exact ⟨rfl, fun q => Or.inl rfl⟩
  | some a =>
      simp only [hl, Option.isSome_some, if_true]
      have hloop := removeAgentLoop_spec aid t (keysA s.work_units) s hwk (fun p hp => hp) hwk
      refine ⟨hloop.2.1, fun q => ?_⟩
      by_cases hq : q ∈ keysA s.work_units
      · exact Or.inr (hloop.2.2.2 q hq)
      · exact Or.inl (hloop.2.2.1 q hq)

theorem cleanupAgentsLoop_lookup (t : Int) :
    ∀ (ks : List String) (s : Registry), (keysA s.agents).Nodup →
      (keysA (cleanupAgentsLoop t ks s).1.agents).Nodup ∧
      (∀ aid, lookupA aid (cleanupAgentsLoop t ks s).1.agents = lookupA aid s.agents ∨
        lookupA aid (cleanupAgentsLoop t ks s).1.agents = none) := by
  intro ks
  induction ks with
  | nil => intro s hnd; exact ⟨hnd, fun aid => Or.inl rfl⟩
  | cons b rest ih =>
      intro s hnd
      rw [cleanupAgentsLoop]
      cases hlb : lookupA b s.agents with
      | none =>
          simp only [hlb]
          exact ih s hnd
      | some a =>
          by_cases hex : a.is_expired t
          · simp only [hlb, hex, if_true]
            rcases remove_agent_agents_cases s b t with he | he
            · have hnd₁ : (keysA (s.remove_agent b t).1.agents).Nodup := by
                rw [he]
                exact nodup_keysA_eraseA hnd
              have IH := ih _ hnd₁
              refine ⟨IH.1, fun aid => ?_⟩
              rcases IH.2 aid with h₂ | h₂
              · rw [h₂, he]
                by_cases hab : aid = b
                · subst hab
                  exact Or.inr (lookupA_eraseA_self hnd)
                · exact Or.inl (lookupA_eraseA_ne hab _)
              · exact Or.inr h₂
            · have IH := ih _ (by rw [he]; exact hnd)
              refine ⟨IH.1, fun aid => ?_⟩
              rcases IH.2 aid with h₂ | h₂
              · rw [h₂, he]
                exact Or.inl rfl
              · exact Or.inr h₂
          · simp only [hlb, hex, if_false]
            exact ih s hnd

theorem cleanupAgentsLoop_removes (t : Int) :
    ∀ (ks : List String) (s : Registry), (keysA s.agents).Nodup →
      ∀ aid a, aid ∈ ks → lookupA aid s.agents = some a → a.is_expired t →
        lookupA aid (cleanupAgentsLoop t ks s).1.agents = none := by
  intro ks
  induction ks with
  | nil => intro s _ aid a hmem; exact absurd hmem (List.not_mem_nil aid)
  | cons b rest ih =>
      intro s hnd aid a hmem hla hexp
      rw [cleanupAgentsLoop]
      by_cases hab : aid = b
      · subst hab
        simp only [hla, hexp, if_true]
        have hknown : (lookupA aid s.agents).isSome := by
          rw [hla]; rfl
        have hre : (s.remove_agent aid t).1.agents = eraseA aid s.agents :=
          remove_agent_agents_known s aid t hknown
        have hnone : lookupA aid (s.remove_agent aid t).1.agents = none := by
          rw [hre]
          exact lookupA_eraseA_self hnd
        have hnd₁ : (keysA (s.remove_agent aid t).1.agents).Nodup := by
          rw [hre]
          exact nodup_keysA_eraseA hnd
        rcases (cleanupAgentsLoop_lookup t rest (s.remove_agent aid t).1 hnd₁).2 aid with h₂ | h₂
        · rw [h₂, hnone]
        · exact h₂
      · have hmem₁ : aid ∈ rest := by
          rcases List.mem_cons.mp hmem with hh | hh
          · exact absurd hh hab
          · exact hh
        cases hlb : lookupA b s.agents with
        | none =>
            simp only [hlb]
            exact ih s hnd aid a hmem₁ hla hexp
        | some ab =>
            by_cases hex : ab.is_expired t
            · simp only [hlb, hex, if_true]
              have hre : (s.remove_agent b t).1.agents = eraseA b s.agents ∨
                  (s.remove_agent b t).1.agents = s.agents := remove_agent_agents_cases s b t
              rcases hre with he | he
              · exact ih _ (by rw [he]; exact nodup_keysA_eraseA hnd) aid a hmem₁
                  (by rw [he, lookupA_eraseA_ne hab]; exact hla) hexp
              · exact ih _ (by rw [he]; exact hnd) aid a hmem₁ (by rw [he]; exact hla) hexp
            · simp only [hlb, hex, if_false]
              exact ih s hnd aid a hmem₁ hla hexp

theorem removeTransform_preserves (aid : String) (t : Int) (o : String) (w : WorkUnit)
    (h₁ : w.owner_agent_id ≠ some o) (h₂ : o ∉ w.queueAgents) :
    (removeTransform aid t w).owner_agent_id ≠ some o ∧
      o ∉ (removeTransform aid t w).queueAgents := by
  constructor
  · by_cases hown : w.owner_agent_id = some aid
    · cases hq : w.queue with
      | nil => simp [removeTransform, releaseTransform, hown, hq]
      | cons e rest =>
          have he : e.agent_id ≠ o := by
            intro hh
            exact h₂ (by simp [WorkUnit.queueAgents, hq, hh])
          simp [removeTransform, releaseTransform, hown, hq, he]
    · simpa [removeTransform, hown] using h₁
  · intro hmem
    have hbase : o ∈ WorkUnit.queueAgents
        (if w.owner_agent_id = some aid then releaseTransform t w else w) := by
      rcases List.mem_map.mp hmem with ⟨e, he, rfl⟩
      exact List.mem_map_of_mem _ (List.mem_of_mem_filter he)
    apply h₂
    by_cases hown : w.owner_agent_id = some aid
    · rw [if_pos hown] at hbase
      cases hq : w.queue with
      | nil => simp [releaseTransform, hq, WorkUnit.queueAgents] at hbase
      | cons e rest =>
          have hr : o ∈ rest.map QueueEntry.agent_id := by
            simpa [releaseTransform, hq, WorkUnit.queueAgents] using hbase
          simp only [WorkUnit.queueAgents, hq, List.map_cons, List.mem_cons]
          exact Or.inr hr
    · rwa [if_neg hown] at hbase

theorem cleanupAgentsLoop_wu_preserve (t : Int) (p o : String) :
    ∀ (ks : List String) (s : Registry),
      (keysA s.work_units).Nodup →
      (∀ w, lookupA p s.work_units = some w →
        w.owner_agent_id ≠ some o ∧ o ∉ w.queueAgents) →
      (∀ w₁, lookupA p (cleanupAgentsLoop t ks s).1.work_units = some w₁ →
        w₁.owner_agent_id ≠ some o ∧ o ∉ w₁.queueAgents) := by
  intro ks
  induction ks with
  | nil => intro s _ hP; exact hP
  | cons b rest ih =>
      intro s hnd hP
      rw [cleanupAgentsLoop]
      cases hlb : lookupA b s.agents with
      | none =>
          simp only [hlb]
          exact ih s hnd hP
      | some a =>
          by_cases hex : a.is_expired t
          · simp only [hlb, hex, if_true]
            have hcases := remove_agent_wu_cases s b t hnd
            apply ih
            · rw [hcases.1]
              exact hnd
            · intro w hw
              rcases hcases.2 p with hc | hc
              · rw [hc] at hw
                exact hP w hw
              · rw [hc] at hw
                cases hl : lookupA p s.work_units with
                | none => rw [hl] at hw; simp at hw
                | some w0 =>
                    rw [hl] at hw
                    obtain rfl : removeTransform b t w0 = w := by simpa using hw
                    have h0 := hP w0 hl
                    exact removeTransform_preserves b t o w0 h0.1 h0.2
          · simp only [hlb, hex, if_false]
            exact ih s hnd hP

/-- C8: cleanup processes work units first and agents second; the returned
list is exactly the paths of work units that were owned and whose
`expires_at` was strictly before the sweep time (so paths released only as a
cascade of expired-agent removal are not in it); after the work-unit phase
every directly expired unit has been released (queue head promoted or made
available), after the whole call its pre-sweep owner no longer owns it, and
every agent whose `last_seen` is older than its TTL has been removed. -/
theorem c8_cleanup_expired (s : Registry) (t : Int)
    (hwk : (keysA s.work_units).Nodup)
    (hak : (keysA s.agents).Nodup)
    (hne : ∀ pw ∈ s.work_units, pw.2.owner_agent_id ≠ some "")
    (hinv : ∀ pw ∈ s.work_units, ∀ o, pw.2.owner_agent_id = some o → o ∉ pw.2.queueAgents) :
    (s.cleanup_expired t).1 =
      (s.work_units.filter (fun pw =>
        (match pw.2.expires_at with
          | some e => decide (e < t)
          | none => false) && pw.2.owner_agent_id.isSome)).map Prod.fst ∧
    (∀ pw ∈ s.work_units, directlyExpired t pw.2 = true →
      lookupA pw.1 (cleanupWorkUnitsLoop t s.work_units s).2.1.work_units =
        some (releaseTransform t pw.2)) ∧
    (∀ aid a, lookupA aid s.agents = some a → a.is_expired t →
      lookupA aid (s.cleanup_expired t).2.1.agents = none) ∧
    (∀ pw ∈ s.work_units, directlyExpired t pw.2 = true →
      ∀ o, pw.2.owner_agent_id = some o →
      ∀ w₁, lookupA pw.1 (s.cleanup_expired t).2.1.work_units = some w₁ →
        w₁.owner_agent_id ≠ some o) := by
  have hp1 := cleanupWorkUnitsLoop_spec t s.work_units s hwk
    (fun pw hpw => lookupA_of_mem_nodup hwk hpw) hwk
  have e₁ : (s.cleanup_expired t).1 = (cleanupWorkUnitsLoop t s.work_units s).1 := rfl
  have e₂ : (s.cleanup_expired t).2.1 =
      (cleanupAgentsLoop t (keysA (cleanupWorkUnitsLoop t s.work_units s).2.1.agents)
        (cleanupWorkUnitsLoop t s.work_units s).2.1).1 := rfl
  refine ⟨?_, ?_, ?_, ?_⟩
  · rw [e₁, hp1.1]
    congr 1
    apply List.filter_congr
    intro pw hpw
    have hno := hne pw hpw
    cases hexp : pw.2.expires_at with
    | none => simp [directlyExpired, hexp]
    | some e =>
        cases hown : pw.2.owner_agent_id with
        | none => simp [directlyExpired, hexp, hown]
        | some o =>
            have ho : o ≠ "" := by
              intro hh
              exact hno (by rw [hown, hh])
            simp [directlyExpired, hexp, hown, ho]
  · intro pw hpw hd
    have hl := hp1.2.2.2.2 pw hpw
    rw [if_pos hd] at hl
    exact hl
  · intro aid a hla hexp
    rw [e₂]
    have hag : (cleanupWorkUnitsLoop t s.work_units s).2.1.agents = s.agents := hp1.2.1
    refine cleanupAgentsLoop_removes t _ _ (by rw [hag]; exact hak) aid a ?_ ?_ hexp
    · rw [hag]
      exact mem_keysA_of_lookupA hla
    · rw [hag]
      exact hla
  · intro pw hpw hd o hown w₁ hw₁
    rw [e₂] at hw₁
    have hs₁nd : (keysA (cleanupWorkUnitsLoop t s.work_units s).2.1.work_units).Nodup := by
      rw [hp1.2.2.1]
      exact hwk
    have hq₂ := hinv pw hpw o hown
    have hP : ∀ w, lookupA pw.1 (cleanupWorkUnitsLoop t s.work_units s).2.1.work_units =
        some w → w.owner_agent_id ≠ some o ∧ o ∉ w.queueAgents := by
      intro w hw
      have hl := hp1.2.2.2.2 pw hpw
      rw [if_pos hd] at hl
      rw [hl] at hw
      obtain rfl : releaseTransform t pw.2 = w := Option.some.inj hw
      cases hq : pw.2.queue with
      | nil =>
          constructor
          · simp [releaseTransform, hq]
          · simp [releaseTransform, hq, WorkUnit.queueAgents]
      | cons e rest =>
          have he : e.agent_id ≠ o := by
            intro hh
            exact hq₂ (by simp [WorkUnit.queueAgents, hq, hh])
          have hrest : o ∉ rest.map QueueEntry.agent_id := by
            intro hh
            apply hq₂
            simp only [WorkUnit.queueAgents, hq, List.map_cons, List.mem_cons]
            exact Or.inr hh
          constructor
          · simp [releaseTransform, hq, he]
          · show o ∉ WorkUnit.queueAgents _
            simp only [releaseTransform, hq, WorkUnit.queueAgents]
            exact hrest
    exact (cleanupAgentsLoop_wu_preserve t pw.1 o _ _ hs₁nd hP w₁ hw₁).1

/-- Witness for C8 at a concrete input: "/p" (owner "a-1", queued "a-2") is
directly expired at the sweep, "/q" (owner "a-2") is not; agent "a-1" is
expired, "a-2" is alive. The sweep returns exactly ["/p"], promotes "a-2"
on "/p", and removes "a-1". -/
theorem c8_witness :
    ((Registry.mk
      [("/p", ⟨"/p", WorkUnitType.file, some "a-1", some 0, [⟨"a-2", 1⟩],
        WorkUnitStatus.claimed, 300, some 100⟩),
       ("/q", ⟨"/q", WorkUnitType.file, some "a-2", some 50, [],
        WorkUnitStatus.claimed, 300, some 500⟩)]
      [("a-1", ⟨"a-1", "a-1", AgentType.main, none, none, 0, 0, 100⟩),
       ("a-2", ⟨"a-2", "a-2", AgentType.main, none, none, 1, 350, 600⟩)]
      300).cleanup_expired 400).1 = ["/p"] ∧
    lookupA "/p" (cleanupWorkUnitsLoop 400 (Registry.mk
      [("/p", ⟨"/p", WorkUnitType.file, some "a-1", some 0, [⟨"a-2", 1⟩],
        WorkUnitStatus.claimed, 300, some 100⟩),
       ("/q", ⟨"/q", WorkUnitType.file, some "a-2", some 50, [],
        WorkUnitStatus.claimed, 300, some 500⟩)]
      [("a-1", ⟨"a-1", "a-1", AgentType.main, none, none, 0, 0, 100⟩),
       ("a-2", ⟨"a-2", "a-2", AgentType.main, none, none, 1, 350, 600⟩)]
      300).work_units (Registry.mk
      [("/p", ⟨"/p", WorkUnitType.file, some "a-1", some 0, [⟨"a-2", 1⟩],
        WorkUnitStatus.claimed, 300, some 100⟩),
       ("/q", ⟨"/q", WorkUnitType.file, some "a-2", some 50, [],
        WorkUnitStatus.claimed, 300, some 500⟩)]
      [("a-1", ⟨"a-1", "a-1", AgentType.main, none, none, 0, 0, 100⟩),
       ("a-2", ⟨"a-2", "a-2", AgentType.main, none, none, 1, 350, 600⟩)]
      300)).2.1.work_units =
      some (releaseTransform 400 ⟨"/p", WorkUnitType.file, some "a-1", some 0,
        [⟨"a-2", 1⟩], WorkUnitStatus.claimed, 300, some 100⟩) ∧
    lookupA "a-1" ((Registry.mk
      [("/p", ⟨"/p", WorkUnitType.file, some "a-1", some 0, [⟨"a-2", 1⟩],
        WorkUnitStatus.claimed, 300, some 100⟩),
       ("/q", ⟨"/q", WorkUnitType.file, some "a-2", some 50, [],
        WorkUnitStatus.claimed, 300, some 500⟩)]
      [("a-1", ⟨"a-1", "a-1", AgentType.main, none, none, 0, 0, 100⟩),
       ("a-2", ⟨"a-2", "a-2", AgentType.main, none, none, 1, 350, 600⟩)]
      300).cleanup_expired 400).2.1.agents = none := by
  have h := c8_cleanup_expired (Registry.mk
      [("/p", ⟨"/p", WorkUnitType.file, some "a-1", some 0, [⟨"a-2", 1⟩],
        WorkUnitStatus.claimed, 300, some 100⟩),
       ("/q", ⟨"/q", WorkUnitType.file, some "a-2", some 50, [],
        WorkUnitStatus.claimed, 300, some 500⟩)]
      [("a-1", ⟨"a-1", "a-1", AgentType.main, none, none, 0, 0, 100⟩),
       ("a-2", ⟨"a-2", "a-2", AgentType.main, none, none, 1, 350, 600⟩)]
      300) 400 (by decide) (by decide) (by decide) (by decide)
  refine ⟨h.1.trans (by decide), ?_, ?_⟩
  · exact h.2.1 ("/p", ⟨"/p", WorkUnitType.file, some "a-1", some 0, [⟨"a-2", 1⟩],
      WorkUnitStatus.claimed, 300, some 100⟩) (by decide) (by decide)
  · exact h.2.2.1 "a-1" ⟨"a-1", "a-1", AgentType.main, none, none, 0, 0, 100⟩
      (by decide) (by decide)

end Sia
